import Mathlib

/-!
Shallow embedding of the UAV flight-log catalog pipeline
(`src/main.py`: class `FlightDataProcessor`; `src/load_catalogs.py`: the
bulk loader).  Machine floats of the source are modelled as exact
rationals (`ℚ`); a CSV cell is modelled through the numeric view the
source takes of it (`pd.to_numeric(..., errors='coerce')`), i.e. as
`Option ℚ` with `none` for a missing / non-numeric entry.  Datetimes are
modelled as nanoseconds since the epoch, again as `ℚ`.
-/

namespace UAVCatalog

/-- Numeric view of a CSV cell: `none` models NaN / missing / non-numeric. -/
abbrev Cell := Option ℚ

/-- Recognized time-column names, in the priority order of
`_process_csv_files` (`['%time', 'time', 'stamp', 'rosbagTimestamp']`). -/
def timeCols : List String := ["%time", "time", "stamp", "rosbagTimestamp"]

/-- `Series.max(skipna=True)`: maximum over the defined entries, `none`
when every entry is missing. -/
def validMax (l : List Cell) : Option ℚ :=
  l.foldl (fun m o =>
    match o with
    | none => m
    | some v => some (match m with | none => v | some m0 => max m0 v)) none

/-- `Series.min(skipna=True)`: minimum over the defined entries. -/
def validMin (l : List Cell) : Option ℚ :=
  l.foldl (fun m o =>
    match o with
    | none => m
    | some v => some (match m with | none => v | some m0 => min m0 v)) none

/-- Scale factor from the inferred unit to nanoseconds, chosen by the
magnitude thresholds of `_to_datetime_guess`:
`mx > 1e14 → 'ns'`, `mx > 1e12 → 'us'`, `mx > 1e10 → 'ms'`,
`mx > 1e5 → 's'`, otherwise the column is judged not to be a timestamp. -/
def unitScale (m : ℚ) : Option ℚ :=
  if 10 ^ 14 < m then some 1
  else if 10 ^ 12 < m then some (10 ^ 3)
  else if 10 ^ 10 < m then some (10 ^ 6)
  else if 10 ^ 5 < m then some (10 ^ 9)
  else none

/-- `FlightDataProcessor._to_datetime_guess`: coerce to numeric, look at
the maximum defined value, pick a unit by magnitude, convert every entry
to a datetime (here: nanoseconds since epoch).  An all-missing input, or
a maximum not exceeding `1e5`, yields an all-missing output. -/
def toDatetimeGuess (l : List Cell) : List Cell :=
  match validMax l with
  | none => l.map fun _ => none
  | some m =>
    match unitScale m with
    | none => l.map fun _ => none
    | some k => l.map fun o => o.map fun v => v * k

/-- `FlightDataProcessor._count_rows_quick`: `max(0, line_count - 1)` for a
readable file, `None` when reading raises. -/
def countRowsQuick : Option ℕ → Option ℤ
  | none => none
  | some n => some (max 0 ((n : ℤ) - 1))

/-! ### DataFrame model and the failure-event extractor -/

/-- The view the source takes of a parsed CSV file: labelled columns, the
pandas-inferred dtype of each column, and the rows as label-indexed
records of (numeric views of) cells. -/
structure Df where
  cols : List String
  dtypeOf : String → String
  rows : List (String → Cell)

/-- `df[c]`: the column of `df` labelled `c`. -/
def dfColumn (d : Df) (c : String) : List Cell := d.rows.map fun r => r c

/-- Case-insensitive literal match: if `s` starts with the (lowercase)
literal `p` up to character case, return the remainder of `s`. -/
def matchLowerLit : List Char → List Char → Option (List Char)
  | [], s => some s
  | _ :: _, [] => none
  | p :: ps, c :: cs => if Char.toLower c = p then matchLowerLit ps cs else none

/-- Tail check for the pattern `failure_status-(?P<kind>[^.]+)\.csv$`
(case-insensitive): the remainder after the literal must be
`<kind>.csv` with `<kind>` nonempty and dot-free; returns `<kind>`. -/
def kindTail (r : List Char) : Option (List Char) :=
  let n := r.length
  if 5 ≤ n ∧ (r.drop (n - 4)).map Char.toLower = ['.', 'c', 's', 'v'] ∧
      ('.' ∉ r.take (n - 4)) ∧ r.take (n - 4) ≠ [] then
    some (r.take (n - 4))
  else none

/-- Leftmost-match scan of `re.search(r'failure_status-(?P<kind>[^.]+)\.csv$',
name, re.IGNORECASE)`: try the literal at each position, and on a literal
hit whose tail does not complete the pattern, resume one character later. -/
def scanKind : List Char → Option (List Char)
  | [] => none
  | c :: cs =>
    match matchLowerLit ("failure_status-".toList) (c :: cs) with
    | some rest =>
      match kindTail rest with
      | some k => some k
      | none => scanKind cs
    | none => scanKind cs

/-- Fault kind extracted from a file name by the ground-truth failure
pattern, `none` when the name does not match. -/
def extractFaultKind (name : String) : Option String :=
  (scanKind name.toList).map fun l => ⟨l⟩

/-- Candidate signal columns of a ground-truth failure file: every parsed
column that is not a recognized time column
(`[c for c in df_fail.columns if c not in [...]]`). -/
def candCols (df : Df) : List String := df.cols.filter fun c => c ∉ timeCols

/-- One row of `failure_rows` / `failure_events.csv`. -/
structure FailureRow where
  fid : String
  fault : String
  evtTime : Cell
  failFile : String
  valueCol : Option String
deriving DecidableEq

/-- Ground-truth branch of `_process_csv_files` for one file: on a name
match, try to read the file (`df? = none` models a read that raises, in
which case the `except` leaves onset and value column unset), take the
first non-time column as signal column (skipped when that column label is
falsy, i.e. the empty string), coerce it to numeric with missing as `0`,
find the first non-zero index, and when a literal `'%time'` column exists
run that row's raw time value through `_to_datetime_guess` as a singleton
series.  A matching file always appends exactly one row. -/
def processFailureFile (fid name : String) (df? : Option Df) : Option FailureRow :=
  match extractFaultKind name with
  | none => none
  | some kind =>
    let ev : Cell × Option String :=
      match df? with
      | none => (none, none)
      | some df =>
        match (candCols df).head? with
        | none => (none, none)
        | some v =>
          if v = "" then (none, some v)
          else
            let arr := (dfColumn df v).map fun o => o.getD 0
            match arr.findIdx? (fun x => x ≠ 0) with
            | none => (none, some v)
            | some i0 =>
              if "%time" ∈ df.cols then
                ((toDatetimeGuess [(dfColumn df "%time").getD i0 none]).headD none,
                  some v)
              else (none, some v)
    some { fid := fid, fault := kind, evtTime := ev.1, failFile := name,
           valueCol := ev.2 }

/-! ### Paths, flight identifiers, topics -/

/-- Split a character list at every occurrence of `sep` (the pieces, in
order, with separators removed). -/
def splitOnChar (sep : Char) : List Char → List (List Char)
  | [] => [[]]
  | c :: cs =>
    let r := splitOnChar sep cs
    if c = sep then [] :: r
    else
      match r with
      | [] => [[c]]
      | h :: t => (c :: h) :: t

/-- Segments of a `/`-separated relative path, as `Path.parts` yields them. -/
def pathParts (p : String) : List String :=
  (splitOnChar '/' p.toList).map fun l => ⟨l⟩

/-- Final component of a relative path (`Path.name`). -/
def fileNameOf (p : String) : String := (pathParts p).getLastD ""

/-- `Path.stem`: the file name with its final extension removed; a dot at
position `0` does not start an extension. -/
def stem (n : String) : String :=
  let cs := n.toList
  match (cs.reverse.findIdx? fun c => c = '.').map (fun j => cs.length - 1 - j) with
  | some i => if 0 < i then ⟨cs.take i⟩ else n
  | none => n

/-- `FlightDataProcessor._flight_id_for`: the first path segment under the
scan root when the file sits in a subdirectory, else the file's stem. -/
def flightIdFor (p : String) : String :=
  let parts := pathParts p
  if 1 < parts.length then parts.headD "" else stem (fileNameOf p)

/-- Topic name of a file: its stem (`csv_path.stem`). -/
def topicName (p : String) : String := stem (fileNameOf p)

/-! ### Insertion-ordered dictionaries (Python `dict` semantics) -/

/-- `lookupA k d`: the value stored at key `k`. -/
def lookupA {β : Type} (k : String) : List (String × β) → Option β
  | [] => none
  | (k0, v0) :: t => if k0 = k then some v0 else lookupA k t

/-- `updateA k f d`: Python's `d[k] = f(d.get(k))` — modify in place when
the key exists, append at the end otherwise (insertion order preserved). -/
def updateA {β : Type} (k : String) (f : Option β → β) :
    List (String × β) → List (String × β)
  | [] => [(k, f none)]
  | (k0, v0) :: t => if k0 = k then (k0, f (some v0)) :: t else (k0, v0) :: updateA k f t

/-- Insert a string into a sorted duplicate-free list: the model of a
Python `set` of dtype names kept in the order `sorted(...)` will render. -/
def insertSorted (x : String) : List String → List String
  | [] => [x]
  | y :: t =>
    if x = y then y :: t
    else if x.toList < y.toList then x :: y :: t
    else y :: insertSorted x t

/-- `', '.join(...)` over the (already sorted) observed-dtype set. -/
def joinComma (l : List String) : String := String.intercalate ", " l

/-! ### Per-file processing and the accumulated state -/

/-- One input file of the scan, as the pipeline observes it: its relative
path, its parsed content (`none` when `pd.read_csv` raises), its line
count (`none` when the raw read for counting raises), and its content
hash.  The header sample and the full read are views of the same parsed
table. -/
structure InputFile where
  path : String
  df : Option Df
  numLines : Option ℕ
  md5 : String

/-- One row of `file_rows` / `files_catalog.csv`. -/
structure FileRow where
  fid : String
  filePath : String
  topic : String
  nrows : Option ℤ
  ncols : ℕ
  hasTimeCol : Bool
  tmin : Cell
  tmax : Cell
  md5 : String
deriving DecidableEq

/-- Accumulated mutable state of `FlightDataProcessor` while scanning. -/
structure ProcState where
  flightBounds : List (String × (Cell × Cell))
  fileRows : List FileRow
  failureRows : List FailureRow
  topicSchemas : List (String × List (String × List String))

/-- Recognized time column of a file: the first name of `timeCols` that
occurs among the parsed columns (`none` when unreadable). -/
def tsColOf (f : InputFile) : Option String :=
  match f.df with
  | none => none
  | some d => timeCols.find? fun c => c ∈ d.cols

/-- Both ends of a datetime series (`dt.min()` / `dt.max()`, which skip
missing entries): defined exactly when at least one entry is defined. -/
def spanOf (l : List Cell) : Option (ℚ × ℚ) :=
  match validMin l, validMax l with
  | some a, some b => some (a, b)
  | _, _ => none

/-- Time span of one file: the recognized time column read in full, run
through `_to_datetime_guess`, min/max taken. -/
def fileSpan (f : InputFile) : Option (ℚ × ℚ) :=
  match tsColOf f, f.df with
  | some c, some d => spanOf (toDatetimeGuess (dfColumn d c))
  | _, _ => none

/-- Folding one file's span `[tm, tM]` into a flight's running bounds:
`lo = tmin if lo is None else min(lo, tmin)` and
`hi = tmax if hi is None else max(hi, tmax)`, with an absent running
entry read as `(None, None)`. -/
def foldBounds (cur : Option (Cell × Cell)) (tm tM : ℚ) : Cell × Cell :=
  let lh := cur.getD (none, none)
  (some (match lh.1 with | none => tm | some l => min l tm),
   some (match lh.2 with | none => tM | some h => max h tM))

/-- Schema fold for one file: `topic_schemas.setdefault(topic, {})`, then
for every column `c`, `setdefault(c, set()).add(dtype(c))`. -/
def foldSchema (topic : String) (cols : List String) (dtypeOf : String → String)
    (m : List (String × List (String × List String))) :
    List (String × List (String × List String)) :=
  updateA topic
    (fun old =>
      cols.foldl
        (fun cm c => updateA c (fun s => insertSorted (dtypeOf c) (s.getD [])) cm)
        (old.getD []))
    m

/-- One iteration of the loop body of `_process_csv_files`. -/
def processFile (st : ProcState) (f : InputFile) : ProcState :=
  let fid := flightIdFor f.path
  let topic := topicName f.path
  let cols := match f.df with | some d => d.cols | none => []
  let tsCol := tsColOf f
  let span := fileSpan f
  let bounds :=
    match span with
    | none => st.flightBounds
    | some (tm, tM) => updateA fid (fun cur => foldBounds cur tm tM) st.flightBounds
  let fRow : FileRow :=
    { fid := fid, filePath := f.path, topic := topic,
      nrows := countRowsQuick f.numLines, ncols := cols.length,
      hasTimeCol := tsCol.isSome,
      tmin := span.map Prod.fst, tmax := span.map Prod.snd, md5 := f.md5 }
  let schemas :=
    match f.df with
    | some d => if d.cols ≠ [] then foldSchema topic d.cols d.dtypeOf st.topicSchemas
                else st.topicSchemas
    | none => st.topicSchemas
  let fails :=
    match processFailureFile fid (fileNameOf f.path) f.df with
    | some r => st.failureRows ++ [r]
    | none => st.failureRows
  { flightBounds := bounds, fileRows := st.fileRows ++ [fRow],
    failureRows := fails, topicSchemas := schemas }

/-- Path order of the directory scan (`sorted(self.base_path.rglob('*.csv'))`,
modelled on the relative path strings). -/
def pathLe (a b : InputFile) : Prop := a.path.toList ≤ b.path.toList

instance : DecidableRel pathLe := fun a b => by unfold pathLe; infer_instance

/-- The scan order: all CSV paths sorted. -/
def sortedInput (files : List InputFile) : List InputFile :=
  files.insertionSort pathLe

/-- `_process_csv_files`: fold every discovered file, in sorted path
order, through the loop body, starting from the empty state. -/
def processAll (files : List InputFile) : ProcState :=
  (sortedInput files).foldl processFile ⟨[], [], [], []⟩

/-! ### Flight aggregation and catalog serialization (`process_data`) -/

/-- One row of `flight_rows` / `flights_catalog.csv`. -/
structure FlightRow where
  fid : String
  filesCSV : ℕ
  hasFailureGT : Bool
  startUTC : Cell
  endUTC : Cell
  durationSec : Cell
deriving DecidableEq

/-- `(hi - lo).total_seconds()` when both bounds are known (bounds are in
nanoseconds, so seconds are the difference divided by `10 ^ 9`). -/
def durationOf (lo hi : Cell) : Cell :=
  match lo, hi with
  | some l, some h => some ((h - l) / 10 ^ 9)
  | _, _ => none

/-- Flight summary loop of `process_data`: one row per entry of
`flight_bounds`, in dict insertion order. -/
def flightRowsOf (st : ProcState) : List FlightRow :=
  st.flightBounds.map fun e =>
    { fid := e.1,
      filesCSV := (st.fileRows.filter fun r => r.fid = e.1).length,
      hasFailureGT := st.failureRows.any fun fr => fr.fid = e.1,
      startUTC := e.2.1, endUTC := e.2.2,
      durationSec := durationOf e.2.1 e.2.2 }

/-- One row of `topic_schema.csv`. -/
structure SchemaRow where
  topic : String
  col : String
  observed : String
deriving DecidableEq

/-- Flattening of the schema registry, dict order, with the observed
dtype set rendered as `', '.join(sorted(dts))`. -/
def schemaRowsOf (st : ProcState) : List SchemaRow :=
  st.topicSchemas.flatMap fun e =>
    e.2.map fun ce => { topic := e.1, col := ce.1, observed := joinComma ce.2 }

/-- `sort_values('FlightID')` order on flight rows. -/
def flightRowLe (a b : FlightRow) : Prop := a.fid.toList ≤ b.fid.toList

/-- `sort_values(['FlightID', 'TopicName'])` order on file rows. -/
def fileRowLe (a b : FileRow) : Prop :=
  a.fid.toList < b.fid.toList ∨ (a.fid = b.fid ∧ a.topic.toList ≤ b.topic.toList)

/-- Strict missing-last order on optional timestamps (pandas sorts `NaT`
last, i.e. as the largest value). -/
def cellLt (x y : Cell) : Prop :=
  match x, y with
  | some a, some b => a < b
  | some _, none => True
  | none, _ => False

/-- `sort_values(['FlightID', 'EventTimeUTC', 'FaultType'])` order. -/
def failRowLe (a b : FailureRow) : Prop :=
  a.fid.toList < b.fid.toList ∨
    (a.fid = b.fid ∧ (cellLt a.evtTime b.evtTime ∨
      (a.evtTime = b.evtTime ∧ a.fault.toList ≤ b.fault.toList)))

/-- `sort_values(['TopicName', 'Column'])` order on schema rows. -/
def schemaRowLe (a b : SchemaRow) : Prop :=
  a.topic.toList < b.topic.toList ∨ (a.topic = b.topic ∧ a.col.toList ≤ b.col.toList)

instance : DecidableRel flightRowLe := fun a b => by unfold flightRowLe; infer_instance

instance : DecidableRel fileRowLe := fun a b => by unfold fileRowLe; infer_instance

instance : DecidableRel cellLt := fun x y => by
  unfold cellLt
  rcases x with _ | a <;> rcases y with _ | b <;> simp <;> infer_instance

instance : DecidableRel failRowLe := fun a b => by unfold failRowLe; infer_instance

instance : DecidableRel schemaRowLe := fun a b => by unfold schemaRowLe; infer_instance

/-- The four serialized catalog tables. -/
structure Catalog where
  flights : List FlightRow
  files : List FileRow
  events : List FailureRow
  schema : List SchemaRow
deriving DecidableEq

/-- `process_data`: run the scan, aggregate flights, and sort each table
by its fixed keys before serialization.  (The source's sorts are
deterministic; ties are modelled by insertion-sort order.) -/
def catalogOf (files : List InputFile) : Catalog :=
  let st := processAll files
  { flights := (flightRowsOf st).insertionSort flightRowLe,
    files := st.fileRows.insertionSort fileRowLe,
    events := st.failureRows.insertionSort failRowLe,
    schema := (schemaRowsOf st).insertionSort schemaRowLe }

/-! ### The bulk loader (`load_catalogs.py`) and its storage model

The storage sink is modelled per table as a list of rows; the three
conflict policies seen in the SQL are: upsert (`ON CONFLICT ... DO
UPDATE` — replace the conflicting row), insert-with-ignore (`ON CONFLICT
... DO NOTHING` — keep the existing row), and plain `INSERT` (append
unconditionally). -/

/-- `INSERT ... ON CONFLICT (key) DO UPDATE SET <all non-key fields> =
EXCLUDED....`: replace every row carrying the key, else append. -/
def dbUpsert {κ ρ : Type} [DecidableEq κ] (key : ρ → κ) (r : ρ) (db : List ρ) :
    List ρ :=
  if db.any fun x => key x = key r then
    db.map fun x => if key x = key r then r else x
  else db ++ [r]

/-- `INSERT ... ON CONFLICT (key) DO NOTHING`: keep the table unchanged
when the key is already present, else append. -/
def dbInsertIgnore {κ ρ : Type} [DecidableEq κ] (key : ρ → κ) (r : ρ)
    (db : List ρ) : List ρ :=
  if db.any fun x => key x = key r then db else db ++ [r]

/-- Load a batch of rows with upsert semantics, in order. -/
def loadUpsert {κ ρ : Type} [DecidableEq κ] (key : ρ → κ) (rows : List ρ)
    (db : List ρ) : List ρ :=
  rows.foldl (fun d r => dbUpsert key r d) db

/-- Load a batch of rows with insert-ignore semantics, in order. -/
def loadIgnore {κ ρ : Type} [DecidableEq κ] (key : ρ → κ) (rows : List ρ)
    (db : List ρ) : List ρ :=
  rows.foldl (fun d r => dbInsertIgnore key r d) db

/-- Stored value of a telemetry sample, as Python's `float` yields it. -/
inductive PyFloat where
  | finite (q : ℚ)
  | pinf
  | ninf
  | nan
deriving DecidableEq

/-- Whether a parsed value is a finite number. -/
def isFiniteVal : PyFloat → Bool
  | .finite _ => true
  | _ => false

/-- One row of `signal_data.csv` as the loader binds it (`flight_id`,
`ts`, `channel` are the raw CSV strings, `value` the parsed float). -/
structure SignalRow where
  fid : String
  ts : String
  channel : String
  value : PyFloat
deriving DecidableEq

/-- Uniqueness key of the `flight` table (`ON CONFLICT (flight_id)`). -/
def flightKey (r : FlightRow) : String := r.fid

/-- Uniqueness key of the `file_asset` table (`ON CONFLICT (md5)`). -/
def fileKey (r : FileRow) : String := r.md5

/-- Uniqueness key of the `topic_schema` table
(`ON CONFLICT (topic_name, column_name)`). -/
def schemaKey (r : SchemaRow) : String × String := (r.topic, r.col)

/-- Uniqueness key of the `signal` table
(`ON CONFLICT (flight_id, ts, channel)`). -/
def signalKey (r : SignalRow) : String × String × String := (r.fid, r.ts, r.channel)

/-- The five tables of the storage sink. -/
structure Database where
  flight : List FlightRow
  fileAsset : List FileRow
  failureEvent : List FailureRow
  topicSchema : List SchemaRow
  signal : List SignalRow
deriving DecidableEq

/-- `load_flights`: upsert on `flight_id`. -/
def loadFlights (rows : List FlightRow) (db : Database) : Database :=
  { db with flight := loadUpsert flightKey rows db.flight }

/-- `load_file_assets`: insert with `ON CONFLICT (md5) DO NOTHING`. -/
def loadFileAssets (rows : List FileRow) (db : Database) : Database :=
  { db with fileAsset := loadIgnore fileKey rows db.fileAsset }

/-- `load_failure_events`: a plain `INSERT` with no conflict clause —
every loaded row is appended. -/
def loadFailureEvents (rows : List FailureRow) (db : Database) : Database :=
  { db with failureEvent := db.failureEvent ++ rows }

/-- `load_topic_schema`: insert with `ON CONFLICT (topic_name,
column_name) DO UPDATE SET observed_dtypes = EXCLUDED.observed_dtypes`. -/
def loadTopicSchema (rows : List SchemaRow) (db : Database) : Database :=
  { db with topicSchema := loadUpsert schemaKey rows db.topicSchema }

/-- Whitespace characters removed by Python's `str.strip()`. -/
def isPyWs (c : Char) : Bool :=
  c = ' ' ∨ c = '\t' ∨ c = '\n' ∨ c = '\r' ∨ c = '\x0b' ∨ c = '\x0c'

/-- `str.strip()`: drop leading and trailing whitespace. -/
def trimWs (l : List Char) : List Char :=
  ((l.dropWhile isPyWs).reverse.dropWhile isPyWs).reverse

/-- Whether every character is a decimal digit. -/
def allDigits (l : List Char) : Bool := l.all fun c => '0' ≤ c ∧ c ≤ '9'

/-- Natural number denoted by a (possibly empty) digit string. -/
def natOfDigits (l : List Char) : ℕ :=
  l.foldl (fun a c => a * 10 + (c.toNat - '0'.toNat)) 0

/-- Mantissa of a Python float literal: `digits`, `digits.digits`,
`digits.` or `.digits`, with at least one digit overall. -/
def mantissaVal (l : List Char) : Option ℚ :=
  match splitOnChar '.' l with
  | [ip] => if ip ≠ [] ∧ allDigits ip then some (natOfDigits ip : ℚ) else none
  | [ip, fp] =>
    if (ip ≠ [] ∨ fp ≠ []) ∧ allDigits ip ∧ allDigits fp then
      some ((natOfDigits ip : ℚ) + (natOfDigits fp : ℚ) / 10 ^ fp.length)
    else none
  | _ => none

/-- Exponent of a float literal: optional sign, then digits. -/
def expVal (l : List Char) : Option ℤ :=
  match l with
  | '+' :: r => if r ≠ [] ∧ allDigits r then some (natOfDigits r : ℤ) else none
  | '-' :: r => if r ≠ [] ∧ allDigits r then some (-(natOfDigits r : ℤ)) else none
  | r => if r ≠ [] ∧ allDigits r then some (natOfDigits r : ℤ) else none

/-- Numeric part of a float literal, already lowercased: mantissa with an
optional `e`-exponent. -/
def numVal (l : List Char) : Option ℚ :=
  match splitOnChar 'e' l with
  | [m] => mantissaVal m
  | [m, e] => (mantissaVal m).bind fun q => (expVal e).map fun z => q * (10 : ℚ) ^ z
  | _ => none

/-- Python's `float(str)` on an already stripped string: an optional
sign, then (case-insensitively) `inf`, `infinity`, `nan`, or a decimal
literal; `none` models a raised `ValueError`.  (Digit-group underscores
and hexadecimal floats are not used by the pipeline's data and are not
modelled; a finite literal overflowing the IEEE range is modelled by its
exact value.) -/
def pyFloatOfChars (l : List Char) : Option PyFloat :=
  let (pos, body) :=
    match l with
    | '+' :: r => (true, r)
    | '-' :: r => (false, r)
    | r => (true, r)
  let lb := body.map Char.toLower
  if lb = "inf".toList ∨ lb = "infinity".toList then
    some (if pos then PyFloat.pinf else PyFloat.ninf)
  else if lb = "nan".toList then some PyFloat.nan
  else (numVal lb).map fun q => PyFloat.finite (if pos then q else -q)

/-- Validation and parse of one raw telemetry `value` field in
`load_signals`: strip; skip when empty or when the lowercased text is
exactly `nan`, `infinity` or `-infinity`; otherwise try `float(...)` and
skip on `ValueError`. -/
def storedSignalValue (s : String) : Option PyFloat :=
  let raw := trimWs s.toList
  if raw = [] then none
  else if raw.map Char.toLower = "nan".toList ∨
      raw.map Char.toLower = "infinity".toList ∨
      raw.map Char.toLower = "-infinity".toList then none
  else pyFloatOfChars raw

/-- `load_signals`: per CSV row, validate/parse the value; accepted rows
are inserted with `ON CONFLICT (flight_id, ts, channel) DO NOTHING`.
Batching only groups consecutive inserts and does not change the final
table, so the batches are modelled as row-at-a-time inserts. -/
def loadSignals (rows : List (String × String × String × String))
    (db : Database) : Database :=
  { db with signal :=
      (rows.foldl
        (fun d r =>
          match storedSignalValue r.2.2.2 with
          | none => d
          | some v => dbInsertIgnore signalKey ⟨r.1, r.2.1, r.2.2.1, v⟩ d)
        db.signal) }

/-- The full catalog hand-off from one pipeline run to the loader. -/
structure LoadInput where
  flights : List FlightRow
  files : List FileRow
  events : List FailureRow
  schema : List SchemaRow
  signals : List (String × String × String × String)

/-- `load_catalogs.main`: load flights, file assets, failure events,
topic schema and telemetry, in that order, into one sink. -/
def loadAll (c : LoadInput) (db : Database) : Database :=
  loadSignals c.signals
    (loadTopicSchema c.schema
      (loadFailureEvents c.events
        (loadFileAssets c.files
          (loadFlights c.flights db))))

/-- The rows of `signal_data.csv` surviving validation, as `SignalRow`s. -/
def acceptedSignals (rows : List (String × String × String × String)) :
    List SignalRow :=
  rows.filterMap fun r =>
    (storedSignalValue r.2.2.2).map fun v => ⟨r.1, r.2.1, r.2.2.1, v⟩

/-- Strict scan-path order. -/
def pathLt (a b : InputFile) : Prop := a.path.toList < b.path.toList

/-! ### Concrete example inputs used by witnesses and counterexamples -/

/-- Row of a two-column ground-truth failure file with time column
`tname` and signal column `sig`. -/
def rowTS (tname sig : String) (tv sv : ℚ) : String → Cell :=
  fun x => if x = tname then some tv else if x = sig then some sv else none

/-- The spec's failure-detection example file: time column
`[100, 200, 300, 400]` (seconds), signal column `[0, 0, 3, 0]`. -/
def exDfC2 : Df :=
  ⟨["%time", "signal"], fun _ => "int64",
   [rowTS "%time" "signal" 100 0, rowTS "%time" "signal" 200 0,
    rowTS "%time" "signal" 300 3, rowTS "%time" "signal" 400 0]⟩

/-- A ground-truth failure file whose only column is a time column. -/
def exDfC3 : Df := ⟨["%time"], fun _ => "int64", [fun _ => some 100]⟩

/-- A ground-truth failure file with no time column and the constant
signal value `1`. -/
def exDfC9 : Df := ⟨["x"], fun _ => "float64", [fun _ => some 1]⟩

/-- A one-file log tree whose only file is a failure file carrying no
usable time span. -/
def exFilesC9 : List InputFile :=
  [⟨"flightA/failure_status-engine.csv", some exDfC9, some 2, "aabb"⟩]

/-- A telemetry file whose `%time` column holds one nanosecond-scale
value, so the file contributes a time span. -/
def exDfSpan : Df :=
  ⟨["%time"], fun _ => "int64",
   [fun x => if x = "%time" then some 2000000000000000 else none]⟩

/-- A one-file log tree contributing one flight with a known span. -/
def exFilesSpan : List InputFile := [⟨"fA/t.csv", some exDfSpan, some 2, "ccdd"⟩]

/-- The Flight record the catalog emits for `exFilesSpan`. -/
def exFlightRow : FlightRow :=
  ⟨"fA", 1, false, some 2000000000000000, some 2000000000000000, some 0⟩

/-- The empty storage sink. -/
def emptyDb : Database := ⟨[], [], [], [], []⟩

/-- A catalog whose only content is a single failure event. -/
def exLoadC1 : LoadInput :=
  ⟨[], [], [⟨"f", "engine", none, "x.csv", none⟩], [], []⟩

/-- A sink whose schema table already observed `int64` for `(t, c)`. -/
def exDbC4 : Database := ⟨[], [], [], [⟨"t", "c", "int64"⟩], []⟩

/-- Two unreadable files on distinct paths, in scan order. -/
def exFilesC10a : List InputFile :=
  [⟨"a.csv", none, none, "m1"⟩, ⟨"b.csv", none, none, "m2"⟩]

/-- The same two files, enumerated in the opposite order. -/
def exFilesC10b : List InputFile :=
  [⟨"b.csv", none, none, "m2"⟩, ⟨"a.csv", none, none, "m1"⟩]

/-! ### Helper lemmas -/

theorem str_eq_of_toList {a b : String} (h : a.toList = b.toList) : a = b := by
  cases a; cases b
  exact congrArg String.mk (by simpa [String.toList] using h)

section DbLemmas

variable {κ ρ : Type} [DecidableEq κ] (key : ρ → κ)

theorem mem_dbUpsert_self (r : ρ) (db : List ρ) : r ∈ dbUpsert key r db := by
  unfold dbUpsert
  split
  · next h =>
    rcases List.any_eq_true.mp h with ⟨x, hx, hk⟩
    exact List.mem_map.mpr ⟨x, hx, by simp [of_decide_eq_true hk]⟩
  · simp

theorem dbUpsert_post (r : ρ) (db : List ρ) :
    ∀ x ∈ dbUpsert key r db, key x = key r → x = r := by
  unfold dbUpsert
  split
  · intro x hx hkx
    rcases List.mem_map.mp hx with ⟨x0, _, hx0⟩
    by_cases h0 : key x0 = key r
    · simpa [h0] using hx0.symm
    · rw [if_neg h0] at hx0
      exact absurd (hx0 ▸ hkx) h0
  · next h =>
    intro x hx hkx
    rcases List.mem_append.mp hx with hx | hx
    · exact absurd (List.any_eq_true.mpr ⟨x, hx, decide_eq_true hkx⟩) h
    · simpa using hx

theorem dbUpsert_keep {x : ρ} (b : ρ) (db : List ρ) (hx : x ∈ db)
    (hne : key x ≠ key b) : x ∈ dbUpsert key b db := by
  unfold dbUpsert
  split
  · exact List.mem_map.mpr ⟨x, hx, by simp [hne]⟩
  · exact List.mem_append.mpr (Or.inl hx)

theorem dbUpsert_from {x : ρ} (b : ρ) (db : List ρ)
    (hx : x ∈ dbUpsert key b db) : x = b ∨ x ∈ db := by
  unfold dbUpsert at hx
  split at hx
  · rcases List.mem_map.mp hx with ⟨x0, hx0, hmap⟩
    by_cases h0 : key x0 = key b
    · left; simp [h0] at hmap; exact hmap.symm
    · right; rw [if_neg h0] at hmap; exact hmap ▸ hx0
  · rcases List.mem_append.mp hx with hx | hx
    · exact Or.inr hx
    · exact Or.inl (by simpa using hx)

theorem dbUpsert_id (r : ρ) (db : List ρ) (hmem : r ∈ db)
    (hall : ∀ x ∈ db, key x = key r → x = r) : dbUpsert key r db = db := by
  unfold dbUpsert
  rw [if_pos (List.any_eq_true.mpr ⟨r, hmem, by simp⟩)]
  calc db.map (fun x => if key x = key r then r else x)
      = db.map id := List.map_congr_left (fun x hx => by
        by_cases h0 : key x = key r
        · simp [h0, hall x hx h0]
        · simp [h0])
    _ = db := List.map_id db

theorem loadUpsert_keepP (r : ρ) (rows : List ρ)
    (hk : ∀ b ∈ rows, key b ≠ key r) :
    ∀ db : List ρ, r ∈ db → (∀ x ∈ db, key x = key r → x = r) →
      r ∈ loadUpsert key rows db ∧
        ∀ x ∈ loadUpsert key rows db, key x = key r → x = r := by
  induction rows with
  | nil => intro db h1 h2; exact ⟨h1, h2⟩
  | cons b t ih =>
    intro db h1 h2
    have hb := hk b (List.mem_cons_self b t)
    have h1' : r ∈ dbUpsert key b db :=
      dbUpsert_keep key b db h1 (fun h => hb h.symm)
    have h2' : ∀ x ∈ dbUpsert key b db, key x = key r → x = r := by
      intro x hx hkx
      rcases dbUpsert_from key b db hx with hx | hx
      · exact absurd (hx ▸ hkx) hb
      · exact h2 x hx hkx
    exact ih (fun c hc => hk c (List.mem_cons_of_mem b hc)) _ h1' h2'

theorem loadUpsert_establishes (rows : List ρ) (hnd : (rows.map key).Nodup) :
    ∀ db : List ρ, ∀ r ∈ rows,
      r ∈ loadUpsert key rows db ∧
        ∀ x ∈ loadUpsert key rows db, key x = key r → x = r := by
  induction rows with
  | nil => intro db r hr; cases hr
  | cons a t ih =>
    intro db r hr
    rcases List.mem_cons.mp hr with rfl | hr
    · have hk : ∀ b ∈ t, key b ≠ key r := by
        intro b hb h
        exact (List.nodup_cons.mp hnd).1 (h ▸ List.mem_map.mpr ⟨b, hb, rfl⟩)
      exact loadUpsert_keepP key r t hk (dbUpsert key r db)
        (mem_dbUpsert_self key r db) (dbUpsert_post key r db)
    · exact ih (List.nodup_cons.mp hnd).2 (dbUpsert key a db) r hr

theorem loadUpsert_id (rows : List ρ) :
    ∀ db : List ρ,
      (∀ r ∈ rows, r ∈ db ∧ ∀ x ∈ db, key x = key r → x = r) →
      loadUpsert key rows db = db := by
  induction rows with
  | nil => intro db _; rfl
  | cons a t ih =>
    intro db h
    have ha := h a (List.mem_cons_self a t)
    have : dbUpsert key a db = db := dbUpsert_id key a db ha.1 ha.2
    show loadUpsert key t (dbUpsert key a db) = db
    rw [this]
    exact ih db (fun r hr => h r (List.mem_cons_of_mem a hr))

theorem loadUpsert_idem (rows : List ρ) (db : List ρ)
    (hnd : (rows.map key).Nodup) :
    loadUpsert key rows (loadUpsert key rows db) = loadUpsert key rows db :=
  loadUpsert_id key rows _ (fun r hr => loadUpsert_establishes key rows hnd db r hr)

theorem dbInsertIgnore_present (r : ρ) (db : List ρ) :
    ∃ x ∈ dbInsertIgnore key r db, key x = key r := by
  unfold dbInsertIgnore
  split
  · next h =>
    rcases List.any_eq_true.mp h with ⟨x, hx, hk⟩
    exact ⟨x, hx, of_decide_eq_true hk⟩
  · exact ⟨r, by simp, rfl⟩

theorem dbInsertIgnore_mono {k : κ} (b : ρ) (db : List ρ)
    (h : ∃ x ∈ db, key x = k) : ∃ x ∈ dbInsertIgnore key b db, key x = k := by
  unfold dbInsertIgnore
  rcases h with ⟨x, hx, hk⟩
  split
  · exact ⟨x, hx, hk⟩
  · exact ⟨x, List.mem_append.mpr (Or.inl hx), hk⟩

theorem dbInsertIgnore_id (r : ρ) (db : List ρ)
    (h : ∃ x ∈ db, key x = key r) : dbInsertIgnore key r db = db := by
  unfold dbInsertIgnore
  rcases h with ⟨x, hx, hk⟩
  rw [if_pos (List.any_eq_true.mpr ⟨x, hx, decide_eq_true hk⟩)]

theorem loadIgnore_mono {k : κ} (rows : List ρ) :
    ∀ db : List ρ, (∃ x ∈ db, key x = k) →
      ∃ x ∈ loadIgnore key rows db, key x = k := by
  induction rows with
  | nil => intro db h; exact h
  | cons a t ih => intro db h; exact ih _ (dbInsertIgnore_mono key a db h)

theorem loadIgnore_establishes (rows : List ρ) :
    ∀ db : List ρ, ∀ r ∈ rows, ∃ x ∈ loadIgnore key rows db, key x = key r := by
  induction rows with
  | nil => intro db r hr; cases hr
  | cons a t ih =>
    intro db r hr
    rcases List.mem_cons.mp hr with rfl | hr
    · exact loadIgnore_mono key t _ (dbInsertIgnore_present key r db)
    · exact ih _ r hr

theorem loadIgnore_id (rows : List ρ) :
    ∀ db : List ρ, (∀ r ∈ rows, ∃ x ∈ db, key x = key r) →
      loadIgnore key rows db = db := by
  induction rows with
  | nil => intro db _; rfl
  | cons a t ih =>
    intro db h
    have : dbInsertIgnore key a db = db :=
      dbInsertIgnore_id key a db (h a (List.mem_cons_self a t))
    show loadIgnore key t (dbInsertIgnore key a db) = db
    rw [this]
    exact ih db (fun r hr => h r (List.mem_cons_of_mem a hr))

theorem loadIgnore_idem (rows : List ρ) (db : List ρ) :
    loadIgnore key rows (loadIgnore key rows db) = loadIgnore key rows db :=
  loadIgnore_id key rows _ (fun r hr => loadIgnore_establishes key rows db r hr)

end DbLemmas

theorem loadSignals_signal_eq (rows : List (String × String × String × String)) :
    ∀ sig : List SignalRow,
      (loadSignals rows ⟨[], [], [], [], sig⟩).signal =
        loadIgnore signalKey (acceptedSignals rows) sig := by
  induction rows with
  | nil => intro sig; rfl
  | cons r t ih =>
    intro sig
    show List.foldl _ _ (r :: t) = _
    rw [List.foldl_cons]
    rcases hv : storedSignalValue r.2.2.2 with _ | v
    · simpa [acceptedSignals, hv] using ih sig
    · simpa [acceptedSignals, hv] using ih (dbInsertIgnore signalKey ⟨r.1, r.2.1, r.2.2.1, v⟩ sig)

theorem loadSignals_signal (rows : List (String × String × String × String))
    (db : Database) :
    (loadSignals rows db).signal = loadIgnore signalKey (acceptedSignals rows) db.signal := by
  have := loadSignals_signal_eq rows db.signal
  simpa [loadSignals] using this

theorem updateA_keys {β : Type} (k : String) (g : Option β → β) :
    ∀ (l : List (String × β)) (fid : String),
      fid ∈ (updateA k g l).map Prod.fst → fid ∈ l.map Prod.fst ∨ fid = k := by
  intro l
  induction l with
  | nil => intro fid h; simp [updateA] at h; exact Or.inr h
  | cons e t ih =>
    rcases e with ⟨k0, v0⟩
    intro fid h
    by_cases he : k0 = k
    · simp only [updateA, if_pos he, List.map_cons, List.mem_cons] at h
      simp only [List.map_cons, List.mem_cons]
      rcases h with h | h
      · exact Or.inl (Or.inl h)
      · exact Or.inl (Or.inr h)
    · simp only [updateA, if_neg he, List.map_cons, List.mem_cons] at h
      simp only [List.map_cons, List.mem_cons]
      rcases h with h | h
      · exact Or.inl (Or.inl h)
      · rcases ih fid h with h2 | h2
        · exact Or.inl (Or.inr h2)
        · exact Or.inr h2

theorem processFile_bounds (st : ProcState) (f : InputFile) :
    (processFile st f).flightBounds =
      match fileSpan f with
      | none => st.flightBounds
      | some (tm, tM) =>
          updateA (flightIdFor f.path) (fun cur => foldBounds cur tm tM)
            st.flightBounds := rfl

theorem foldl_bounds_keys (files : List InputFile) :
    ∀ (st : ProcState) (fid : String),
      fid ∈ (files.foldl processFile st).flightBounds.map Prod.fst →
      fid ∈ st.flightBounds.map Prod.fst ∨
        ∃ f ∈ files, flightIdFor f.path = fid ∧ (fileSpan f).isSome := by
  induction files with
  | nil => intro st fid h; exact Or.inl h
  | cons f t ih =>
    intro st fid h
    rw [List.foldl_cons] at h
    rcases ih (processFile st f) fid h with h | ⟨g, hg, hfid⟩
    · rw [processFile_bounds] at h
      rcases hsp : fileSpan f with _ | ⟨tm, tM⟩
      · rw [hsp] at h; exact Or.inl h
      · rw [hsp] at h
        rcases updateA_keys _ _ _ _ h with h | h
        · exact Or.inl h
        · exact Or.inr ⟨f, List.mem_cons_self f t, h.symm ▸ ⟨rfl, by rw [hsp]; rfl⟩⟩
    · exact Or.inr ⟨g, List.mem_cons_of_mem f hg, hfid⟩

/-! ### Order facts for the catalog sorts -/

instance : IsTotal InputFile pathLe :=
  ⟨fun a b => le_total a.path.toList b.path.toList⟩

instance : IsTrans InputFile pathLe :=
  ⟨fun _ _ _ h1 h2 => le_trans h1 h2⟩

instance : IsTotal FlightRow flightRowLe :=
  ⟨fun a b => le_total a.fid.toList b.fid.toList⟩

instance : IsTrans FlightRow flightRowLe :=
  ⟨fun _ _ _ h1 h2 => le_trans h1 h2⟩

theorem cellLt_trans {x y z : Cell} (h1 : cellLt x y) (h2 : cellLt y z) :
    cellLt x z := by
  rcases x with _ | a <;> rcases y with _ | b <;> rcases z with _ | c <;>
    simp [cellLt] at *
  exact lt_trans h1 h2

theorem cellLt_tri (x y : Cell) : cellLt x y ∨ x = y ∨ cellLt y x := by
  rcases x with _ | a <;> rcases y with _ | b <;> simp [cellLt]
  rcases lt_trichotomy a b with h | h | h
  · exact Or.inl h
  · exact Or.inr (Or.inl h)
  · exact Or.inr (Or.inr h)

instance : IsTotal FileRow fileRowLe := by
  refine ⟨fun a b => ?_⟩
  unfold fileRowLe
  rcases lt_trichotomy a.fid.toList b.fid.toList with h | h | h
  · exact Or.inl (Or.inl h)
  · have e := str_eq_of_toList h
    rcases le_total a.topic.toList b.topic.toList with ht | ht
    · exact Or.inl (Or.inr ⟨e, ht⟩)
    · exact Or.inr (Or.inr ⟨e.symm, ht⟩)
  · exact Or.inr (Or.inl h)

instance : IsTrans FileRow fileRowLe := by
  refine ⟨fun a b c h1 h2 => ?_⟩
  unfold fileRowLe at *
  rcases h1 with h1 | ⟨e1, h1⟩ <;> rcases h2 with h2 | ⟨e2, h2⟩
  · exact Or.inl (lt_trans h1 h2)
  · exact Or.inl (by rw [← e2]; exact h1)
  · exact Or.inl (by rw [e1]; exact h2)
  · exact Or.inr ⟨e1.trans e2, le_trans h1 h2⟩

instance : IsTotal SchemaRow schemaRowLe := by
  refine ⟨fun a b => ?_⟩
  unfold schemaRowLe
  rcases lt_trichotomy a.topic.toList b.topic.toList with h | h | h
  · exact Or.inl (Or.inl h)
  · have e := str_eq_of_toList h
    rcases le_total a.col.toList b.col.toList with ht | ht
    · exact Or.inl (Or.inr ⟨e, ht⟩)
    · exact Or.inr (Or.inr ⟨e.symm, ht⟩)
  · exact Or.inr (Or.inl h)

instance : IsTrans SchemaRow schemaRowLe := by
  refine ⟨fun a b c h1 h2 => ?_⟩
  unfold schemaRowLe at *
  rcases h1 with h1 | ⟨e1, h1⟩ <;> rcases h2 with h2 | ⟨e2, h2⟩
  · exact Or.inl (lt_trans h1 h2)
  · exact Or.inl (by rw [← e2]; exact h1)
  · exact Or.inl (by rw [e1]; exact h2)
  · exact Or.inr ⟨e1.trans e2, le_trans h1 h2⟩

instance : IsTotal FailureRow failRowLe := by
  refine ⟨fun a b => ?_⟩
  unfold failRowLe
  rcases lt_trichotomy a.fid.toList b.fid.toList with h | h | h
  · exact Or.inl (Or.inl h)
  · have e := str_eq_of_toList h
    rcases cellLt_tri a.evtTime b.evtTime with hc | hc | hc
    · exact Or.inl (Or.inr ⟨e, Or.inl hc⟩)
    · rcases le_total a.fault.toList b.fault.toList with ht | ht
      · exact Or.inl (Or.inr ⟨e, Or.inr ⟨hc, ht⟩⟩)
      · exact Or.inr (Or.inr ⟨e.symm, Or.inr ⟨hc.symm, ht⟩⟩)
    · exact Or.inr (Or.inr ⟨e.symm, Or.inl hc⟩)
  · exact Or.inr (Or.inl h)

instance : IsTrans FailureRow failRowLe := by
  refine ⟨fun a b c h1 h2 => ?_⟩
  unfold failRowLe at *
  rcases h1 with h1 | ⟨e1, h1⟩ <;> rcases h2 with h2 | ⟨e2, h2⟩
  · exact Or.inl (lt_trans h1 h2)
  · exact Or.inl (by rw [← e2]; exact h1)
  · exact Or.inl (by rw [e1]; exact h2)
  · refine Or.inr ⟨e1.trans e2, ?_⟩
    rcases h1 with h1 | ⟨f1, h1⟩ <;> rcases h2 with h2 | ⟨f2, h2⟩
    · exact Or.inl (cellLt_trans h1 h2)
    · exact Or.inl (by rw [← f2]; exact h1)
    · exact Or.inl (by rw [f1]; exact h2)
    · exact Or.inr ⟨f1.trans f2, le_trans h1 h2⟩

theorem sortedInput_perm_invariant (l1 l2 : List InputFile) (hp : l1.Perm l2)
    (hnd : (l1.map InputFile.path).Nodup) : sortedInput l1 = sortedInput l2 := by
  have hs1 : (sortedInput l1).Sorted pathLe := List.sorted_insertionSort pathLe l1
  have hs2 : (sortedInput l2).Sorted pathLe := List.sorted_insertionSort pathLe l2
  have hp1 : (sortedInput l1).Perm l1 := List.perm_insertionSort pathLe l1
  have hp2 : (sortedInput l2).Perm l2 := List.perm_insertionSort pathLe l2
  have hnd2 : (l2.map InputFile.path).Nodup := (hp.map InputFile.path).nodup hnd
  have hnds1 : ((sortedInput l1).map InputFile.path).Nodup :=
    ((hp1.map InputFile.path).symm).nodup hnd
  have hnds2 : ((sortedInput l2).map InputFile.path).Nodup :=
    ((hp2.map InputFile.path).symm).nodup hnd2
  have hlt1 : (sortedInput l1).Sorted pathLt := by
    have hne := List.pairwise_map.mp hnds1
    exact (hs1.and hne).imp fun h =>
      lt_of_le_of_ne h.1 fun he => h.2 (str_eq_of_toList he)
  have hlt2 : (sortedInput l2).Sorted pathLt := by
    have hne := List.pairwise_map.mp hnds2
    exact (hs2.and hne).imp fun h =>
      lt_of_le_of_ne h.1 fun he => h.2 (str_eq_of_toList he)
  haveI : IsAntisymm InputFile pathLt :=
    ⟨fun a b h1 h2 => absurd (lt_trans h1 h2) (lt_irrefl _)⟩
  exact List.eq_of_perm_of_sorted (hp1.trans (hp.trans hp2.symm)) hlt1 hlt2

theorem mem_insertSorted_self (x : String) (s : List String) :
    x ∈ insertSorted x s := by
  induction s with
  | nil => simp [insertSorted]
  | cons y t ih =>
    unfold insertSorted
    by_cases he : x = y
    · rw [if_pos he, he]
      exact List.mem_cons_self y t
    · rw [if_neg he]
      by_cases hl : x.toList < y.toList
      · rw [if_pos hl]
        exact List.mem_cons_self x (y :: t)
      · rw [if_neg hl]
        exact List.mem_cons_of_mem y ih

theorem mem_insertSorted_of_mem (x y : String) (s : List String) (h : y ∈ s) :
    y ∈ insertSorted x s := by
  induction s with
  | nil => cases h
  | cons z t ih =>
    unfold insertSorted
    rcases List.mem_cons.mp h with rfl | h
    · by_cases he : x = y
      · rw [if_pos he]
        exact List.mem_cons_self y t
      · rw [if_neg he]
        by_cases hl : x.toList < y.toList
        · rw [if_pos hl]
          exact List.mem_cons_of_mem x (List.mem_cons_self y t)
        · rw [if_neg hl]
          exact List.mem_cons_self y _
    · by_cases he : x = z
      · rw [if_pos he]
        exact List.mem_cons_of_mem z h
      · rw [if_neg he]
        by_cases hl : x.toList < z.toList
        · rw [if_pos hl]
          exact List.mem_cons_of_mem x (List.mem_cons_of_mem z h)
        · rw [if_neg hl]
          exact List.mem_cons_of_mem z (ih h)

/-- Reduction of `_to_datetime_guess` once the maximum is known. -/
theorem toDatetimeGuess_of_max (l : List Cell) (m : ℚ) (hv : validMax l = some m) :
    toDatetimeGuess l =
      match unitScale m with
      | none => l.map fun _ => none
      | some k => l.map fun o => o.map fun v => v * k := by
  unfold toDatetimeGuess
  rw [hv]

/-- Shared core of claim C2: a ground-truth failure file named for the
`engine` fault whose two columns are a recognized time column holding
`[100, 200, 300, 400]` and a signal column holding `[0, 0, 3, 0]` yields
exactly one event of fault `engine`, whose onset is missing because the
unit inferrer judges the singleton series `[300]` (maximum `300 ≤ 1e5`)
not to be a timestamp. -/
theorem failFile_sig_onset_none (fid name tname sig : String) (dt : String → String)
    (hk : extractFaultKind name = some "engine")
    (ht : tname ∈ timeCols) (hs : sig ∉ timeCols) (hs0 : sig ≠ "") :
    processFailureFile fid name (some ⟨[tname, sig], dt,
        [rowTS tname sig 100 0, rowTS tname sig 200 0,
         rowTS tname sig 300 3, rowTS tname sig 400 0]⟩) =
      some ⟨fid, "engine", none, name, some sig⟩ := by
  have hst : sig ≠ tname := fun h => hs (h ▸ ht)
  have hsT : ("%time" : String) ≠ sig := fun h => hs (by rw [← h]; decide)
  simp only [processFailureFile, hk]
  simp only [candCols, List.filter, decide_eq_true_eq, hs, ht, if_pos, if_neg,
    decide_not]
  simp [hs, ht, List.filter, dfColumn, rowTS, hst, hs0, List.findIdx?,
    toDatetimeGuess, validMax, unitScale]
  constructor
  · by_cases htn : ("%time" : String) = tname
    · subst htn
      simp [hsT]
      norm_num
    · simp [htn, hsT]
  · by_cases htn : ("%time" : String) = tname
    · subst htn
      simp [hsT]
    · simp [htn, hsT]

/-! ### The claims -/

/-- C2 (corrected): for a ground-truth file `...failure_status-engine.csv`
whose recognized time column is `[100, 200, 300, 400]` and whose signal
column is `[0, 0, 3, 0]`, the extractor emits exactly one FailureEvent of
fault type `engine` — but with an *undefined* onset timestamp, not the
datetime of `300`: `_to_datetime_guess` on the singleton `[300]` sees a
maximum of `300 ≤ 1e5` and judges the value not to be a timestamp. -/
theorem C2_engine_event_onset_undefined (fid name tname sig : String)
    (dt : String → String)
    (hk : extractFaultKind name = some "engine")
    (ht : tname ∈ timeCols) (hs : sig ∉ timeCols) (hs0 : sig ≠ "") :
    processFailureFile fid name (some ⟨[tname, sig], dt,
        [rowTS tname sig 100 0, rowTS tname sig 200 0,
         rowTS tname sig 300 3, rowTS tname sig 400 0]⟩) =
      some ⟨fid, "engine", none, name, some sig⟩ :=
  failFile_sig_onset_none fid name tname sig dt hk ht hs hs0

/-- C2 counterexample: on the spec's own example file the emitted event's
onset is missing (`NaT`), not the timestamp corresponding to `300`. -/
theorem C2_counterexample :
    (processFailureFile "f" "failure_status-engine.csv" (some exDfC2)).map
        FailureRow.evtTime = some none ∧
      some (none : Cell) ≠ some (some ((300 : ℚ) * 10 ^ 9)) := by
  have h := failFile_sig_onset_none "f" "failure_status-engine.csv" "%time" "signal"
    (fun _ => "int64") (by decide) (by decide) (by decide) (by decide)
  refine ⟨?_, by simp⟩
  rw [show processFailureFile "f" "failure_status-engine.csv" (some exDfC2) =
      some ⟨"f", "engine", none, "failure_status-engine.csv", some "signal"⟩ from h]
  rfl

/-- C2 witness: the theorem applied to the concrete example file. -/
theorem C2_witness :
    processFailureFile "f" "failure_status-engine.csv" (some exDfC2) =
      some ⟨"f", "engine", none, "failure_status-engine.csv", some "signal"⟩ :=
  C2_engine_event_onset_undefined "f" "failure_status-engine.csv" "%time" "signal"
    (fun _ => "int64") (by decide) (by decide) (by decide) (by decide)

/-- C3 (corrected): a file matching the failure pattern whose column list
contains no candidate signal column still emits exactly one FailureEvent —
with undefined onset and no value column — because the source appends the
row unconditionally after the (empty) candidate search. -/
theorem C3_no_signal_column_still_emits_event (fid name k : String) (df : Df)
    (hk : extractFaultKind name = some k) (hc : candCols df = []) :
    processFailureFile fid name (some df) = some ⟨fid, k, none, name, none⟩ := by
  simp [processFailureFile, hk, hc]

/-- C3 counterexample: a failure-named file whose only column is `%time`
emits an event, contradicting "no FailureEvent is emitted". -/
theorem C3_counterexample :
    processFailureFile "f" "failure_status-gps.csv" (some exDfC3) =
        some ⟨"f", "gps", none, "failure_status-gps.csv", none⟩ ∧
      processFailureFile "f" "failure_status-gps.csv" (some exDfC3) ≠ none := by
  constructor
  · decide
  · decide

/-- C3 witness: the theorem applied to the concrete time-column-only file. -/
theorem C3_witness :
    processFailureFile "f" "failure_status-gps.csv" (some exDfC3) =
      some ⟨"f", "gps", none, "failure_status-gps.csv", none⟩ :=
  C3_no_signal_column_still_emits_event "f" "failure_status-gps.csv" "gps" exDfC3
    (by decide) (by decide)

/-- C4 (corrected): at load time `load_topic_schema` *replaces* the stored
observed-type string for a conflicting `(topic, column)` key with the newly
loaded one (`DO UPDATE SET observed_dtypes = EXCLUDED.observed_dtypes`);
union of observations happens only inside one catalog build, where
`insertSorted` keeps the old members of the dtype set and adds the new. -/
theorem C4_load_replaces_observed_types (db : Database) (r : SchemaRow)
    (x y : String) (s : List String) :
    (r ∈ (loadTopicSchema [r] db).topicSchema ∧
      ∀ z ∈ (loadTopicSchema [r] db).topicSchema, schemaKey z = schemaKey r → z = r) ∧
    (x ∈ insertSorted x s ∧ (y ∈ s → y ∈ insertSorted x s)) := by
  have h : (loadTopicSchema [r] db).topicSchema = dbUpsert schemaKey r db.topicSchema := rfl
  refine ⟨⟨?_, ?_⟩, mem_insertSorted_self x s, mem_insertSorted_of_mem x y s⟩
  · rw [h]; exact mem_dbUpsert_self schemaKey r db.topicSchema
  · rw [h]; exact dbUpsert_post schemaKey r db.topicSchema

/-- C4 counterexample: a sink whose schema table has observed `int64` for
`(t, c)`, on loading a `float64` observation for the same key, ends with
exactly `float64` — not the union `float64, int64` the claim requires. -/
theorem C4_counterexample :
    (loadTopicSchema [⟨"t", "c", "float64"⟩] exDbC4).topicSchema =
        [⟨"t", "c", "float64"⟩] ∧
      (⟨"t", "c", "float64"⟩ : SchemaRow) ≠ ⟨"t", "c", "float64, int64"⟩ := by
  constructor
  · decide
  · decide

/-- C4 witness: the theorem applied to the concrete one-row load. -/
theorem C4_witness :
    (⟨"t", "c", "float64"⟩ : SchemaRow) ∈
        (loadTopicSchema [⟨"t", "c", "float64"⟩] exDbC4).topicSchema ∧
      ("int64" : String) ∈ insertSorted "float64" ["int64"] :=
  ⟨(C4_load_replaces_observed_types exDbC4 ⟨"t", "c", "float64"⟩ "x" "y" []).1.1,
   (C4_load_replaces_observed_types exDbC4 ⟨"t", "c", "float64"⟩ "float64" "int64"
      ["int64"]).2.2 (by decide)⟩

/-- C5 (confirmed): the unit inferrer is a total function of the input
values; with `m` the maximum defined value, the applied scale (to
nanoseconds) is `1` when `m > 1e14` (nanoseconds), `1e3` when
`1e12 < m ≤ 1e14` (microseconds), `1e6` when `1e10 < m ≤ 1e12`
(milliseconds), `1e9` when `1e5 < m ≤ 1e10` (seconds), and otherwise —
including the all-missing input — every output entry is missing.  The
output always has the input's length (no error). -/
theorem C5_unit_inferrer (l : List Cell) :
    (toDatetimeGuess l).length = l.length ∧
    (validMax l = none → toDatetimeGuess l = l.map fun _ => none) ∧
    ∀ m, validMax l = some m →
      ((10 ^ 14 < m → toDatetimeGuess l = l.map fun o => o.map fun v => v * 1) ∧
       (10 ^ 12 < m → m ≤ 10 ^ 14 →
         toDatetimeGuess l = l.map fun o => o.map fun v => v * 10 ^ 3) ∧
       (10 ^ 10 < m → m ≤ 10 ^ 12 →
         toDatetimeGuess l = l.map fun o => o.map fun v => v * 10 ^ 6) ∧
       (10 ^ 5 < m → m ≤ 10 ^ 10 →
         toDatetimeGuess l = l.map fun o => o.map fun v => v * 10 ^ 9) ∧
       (m ≤ 10 ^ 5 → toDatetimeGuess l = l.map fun _ => none)) := by
  refine ⟨?_, ?_, ?_⟩
  · unfold toDatetimeGuess
    cases hv : validMax l with
    | none => simp
    | some m => cases hk : unitScale m <;> simp [hk]
  · intro hv
    unfold toDatetimeGuess
    rw [hv]
  · intro m hv
    refine ⟨fun h1 => ?_, fun h1 h2 => ?_, fun h1 h2 => ?_, fun h1 h2 => ?_,
      fun h1 => ?_⟩ <;> rw [toDatetimeGuess_of_max l m hv] <;> unfold unitScale
    · rw [if_pos h1]
    · rw [if_neg (not_lt.mpr h2), if_pos h1]
    · rw [if_neg (not_lt.mpr (le_trans h2 (by norm_num))),
        if_neg (not_lt.mpr h2), if_pos h1]
    · rw [if_neg (not_lt.mpr (le_trans h2 (by norm_num))),
        if_neg (not_lt.mpr (le_trans h2 (by norm_num))),
        if_neg (not_lt.mpr h2), if_pos h1]
    · rw [if_neg (not_lt.mpr (le_trans h1 (by norm_num))),
        if_neg (not_lt.mpr (le_trans h1 (by norm_num))),
        if_neg (not_lt.mpr (le_trans h1 (by norm_num))),
        if_neg (not_lt.mpr h1)]

/-- C5 witness: the maximum `500` does not exceed `1e5`, so the spec's
`500 → not-a-timestamp` example yields an all-missing output. -/
theorem C5_witness :
    validMax [some (500 : ℚ)] = some 500 ∧ (500 : ℚ) ≤ 10 ^ 5 ∧
      toDatetimeGuess [some (500 : ℚ)] = [none] := by
  refine ⟨rfl, by norm_num, ?_⟩
  have h := ((C5_unit_inferrer [some (500 : ℚ)]).2.2 500 rfl).2.2.2.2 (by norm_num)
  simpa using h

/-- C6 (code bug): the loader's guard drops the spellings `nan`,
`infinity` and `-infinity` (any case) and the empty value, but Python's
`float` also accepts `inf`, so the raw value `"inf"` passes the guard and
is stored as positive infinity — a non-finite value reaches storage. -/
theorem C6_inf_reaches_storage :
    storedSignalValue "inf" = some PyFloat.pinf ∧
      isFiniteVal PyFloat.pinf = false ∧
      storedSignalValue "" = none ∧
      storedSignalValue "nan" = none ∧
      storedSignalValue "Infinity" = none ∧
      storedSignalValue "-infinity" = none := by
  refine ⟨?_, rfl, ?_, ?_, ?_, ?_⟩ <;> decide

/-- C7 (confirmed): folding a file span into an absent running span takes
the new span verbatim; folding a second span takes the min of lows and
max of highs; and the emitted duration is the difference of the bounds in
seconds (the bounds being nanosecond-scaled datetimes) exactly when both
bounds are known. -/
theorem C7_flight_span_fold (t1 t2 t3 t4 lo hi : ℚ) :
    foldBounds none t1 t2 = (some t1, some t2) ∧
    foldBounds (some (foldBounds none t1 t2)) t3 t4 =
      (some (min t1 t3), some (max t2 t4)) ∧
    durationOf (some lo) (some hi) = some ((hi - lo) / 10 ^ 9) ∧
    durationOf none (some hi) = none ∧ durationOf (some lo) none = none := by
  refine ⟨rfl, ?_, rfl, rfl, rfl⟩
  simp [foldBounds]

/-- C8 (corrected): the reported row count is `max(0, lines - 1)` — equal
to `lines - 1` for every file with at least one line, but `0` (not `-1`)
for an empty file; an unreadable file reports an undefined count. -/
theorem C8_row_count (n : ℕ) :
    countRowsQuick none = none ∧
    countRowsQuick (some n) = some (max 0 ((n : ℤ) - 1)) ∧
    (1 ≤ n → countRowsQuick (some n) = some ((n : ℤ) - 1)) := by
  refine ⟨rfl, rfl, fun h => ?_⟩
  show some (max 0 ((n : ℤ) - 1)) = some ((n : ℤ) - 1)
  rw [max_eq_right (by omega : (0 : ℤ) ≤ (n : ℤ) - 1)]

/-- C8 counterexample: a readable zero-line file reports `0`, while
"number of lines minus one" would be `-1`. -/
theorem C8_counterexample :
    countRowsQuick (some 0) = some 0 ∧
      some ((0 : ℕ) : ℤ) ≠ some (((0 : ℕ) : ℤ) - 1) := by
  constructor
  · decide
  · decide

/-- C8 witness: a three-line file reports two data rows. -/
theorem C8_witness : (1 : ℕ) ≤ 3 ∧ countRowsQuick (some 3) = some 2 := by
  refine ⟨by norm_num, ?_⟩
  have h := (C8_row_count 3).2.2 (by norm_num)
  simpa using h

/-- C1 (corrected): re-loading the identical catalog leaves the `flight`,
`file_asset`, `topic_schema` and `signal` tables unchanged (their upsert
and insert-ignore conflict keys absorb every row), but `failure_event` is
a plain `INSERT` with no uniqueness key, so the second run appends every
event again — the net change is the event count, not zero. -/
theorem C1_second_load_adds_only_failure_events (c : LoadInput) (db : Database)
    (h1 : (c.flights.map flightKey).Nodup) (h2 : (c.schema.map schemaKey).Nodup) :
    (loadAll c (loadAll c db)).flight = (loadAll c db).flight ∧
    (loadAll c (loadAll c db)).fileAsset = (loadAll c db).fileAsset ∧
    (loadAll c (loadAll c db)).topicSchema = (loadAll c db).topicSchema ∧
    (loadAll c (loadAll c db)).signal = (loadAll c db).signal ∧
    (loadAll c (loadAll c db)).failureEvent =
      (loadAll c db).failureEvent ++ c.events := by
  have pf : ∀ d : Database, (loadAll c d).flight =
      loadUpsert flightKey c.flights d.flight := fun _ => rfl
  have pa : ∀ d : Database, (loadAll c d).fileAsset =
      loadIgnore fileKey c.files d.fileAsset := fun _ => rfl
  have pt : ∀ d : Database, (loadAll c d).topicSchema =
      loadUpsert schemaKey c.schema d.topicSchema := fun _ => rfl
  have ps : ∀ d : Database, (loadAll c d).signal =
      loadIgnore signalKey (acceptedSignals c.signals) d.signal := fun d =>
    loadSignals_signal c.signals
      (loadTopicSchema c.schema (loadFailureEvents c.events
        (loadFileAssets c.files (loadFlights c.flights d))))
  refine ⟨?_, ?_, ?_, ?_, rfl⟩
  · simp only [pf]
    exact loadUpsert_idem flightKey c.flights db.flight h1
  · simp only [pa]
    exact loadIgnore_idem fileKey c.files db.fileAsset
  · simp only [pt]
    exact loadUpsert_idem schemaKey c.schema db.topicSchema h2
  · simp only [ps]
    exact loadIgnore_idem signalKey (acceptedSignals c.signals) db.signal

/-- C1 counterexample: a catalog holding one failure event, loaded twice
into an empty sink, ends with two stored events — the second run is not a
zero-net-change for the failure-event entity. -/
theorem C1_counterexample :
    ((loadAll exLoadC1 (loadAll exLoadC1 emptyDb)).failureEvent).length = 2 ∧
      ((loadAll exLoadC1 emptyDb).failureEvent).length = 1 ∧ (2 : ℕ) ≠ 1 := by
  refine ⟨rfl, rfl, by decide⟩

/-- C1 witness: the theorem applied to the one-event catalog and the
empty sink. -/
theorem C1_witness :
    (exLoadC1.flights.map flightKey).Nodup ∧
    (exLoadC1.schema.map schemaKey).Nodup ∧
    (loadAll exLoadC1 (loadAll exLoadC1 emptyDb)).signal =
        (loadAll exLoadC1 emptyDb).signal ∧
    (loadAll exLoadC1 (loadAll exLoadC1 emptyDb)).failureEvent =
        (loadAll exLoadC1 emptyDb).failureEvent ++ exLoadC1.events :=
  ⟨by decide, by decide,
    (C1_second_load_adds_only_failure_events exLoadC1 emptyDb
      (by decide) (by decide)).2.2.2.1,
    (C1_second_load_adds_only_failure_events exLoadC1 emptyDb
      (by decide) (by decide)).2.2.2.2⟩

/-- C9 (confirmed): a Flight record is emitted only for identifiers that
accumulated at least one known file time span; and there is an input —
a single failure file with no time column — whose catalog contains a
FailureEvent whose flight identifier matches no Flight record. -/
theorem C9_flights_need_spans_events_can_orphan :
    (∀ (files : List InputFile) (fl : FlightRow),
      fl ∈ (catalogOf files).flights →
        ∃ f ∈ files, flightIdFor f.path = fl.fid ∧ (fileSpan f).isSome) ∧
    (∃ ev ∈ (catalogOf exFilesC9).events,
      ∀ g ∈ (catalogOf exFilesC9).flights, g.fid ≠ ev.fid) := by
  constructor
  · intro files fl hfl
    have hp := List.perm_insertionSort flightRowLe (flightRowsOf (processAll files))
    have hfl' : fl ∈ flightRowsOf (processAll files) := hp.subset hfl
    rcases List.mem_map.mp hfl' with ⟨e, he, hfe⟩
    have hkey : fl.fid ∈ (processAll files).flightBounds.map Prod.fst :=
      List.mem_map.mpr ⟨e, he, by rw [← hfe]⟩
    rcases foldl_bounds_keys (sortedInput files) ⟨[], [], [], []⟩ fl.fid hkey with
      h | ⟨f, hf, hfid⟩
    · simp at h
    · exact ⟨f, (List.perm_insertionSort pathLe files).subset hf, hfid⟩
  · refine ⟨⟨"flightA", "engine", none, "failure_status-engine.csv", some "x"⟩, ?_, ?_⟩
    · have he : (catalogOf exFilesC9).events =
          [⟨"flightA", "engine", none, "failure_status-engine.csv", some "x"⟩] := by
        decide
      rw [he]
      exact List.mem_cons_self _ _
    · intro g hg
      have hf : (catalogOf exFilesC9).flights = [] := by decide
      rw [hf] at hg
      cases hg

/-- C9 witness: the universal half applied to a one-file tree whose file
does contribute a span, at its emitted Flight record. -/
theorem C9_witness :
    exFlightRow ∈ (catalogOf exFilesSpan).flights ∧
      ∃ f ∈ exFilesSpan, flightIdFor f.path = exFlightRow.fid ∧
        (fileSpan f).isSome := by
  have hmem : exFlightRow ∈ (catalogOf exFilesSpan).flights := by
    have hfk : processFailureFile "fA" "t.csv"
        (some ⟨["%time"], fun _ => "int64",
          [fun x => if x = "%time" then some 2000000000000000 else none]⟩) =
          none := by decide
    have h : (catalogOf exFilesSpan).flights = [exFlightRow] := by
      simp [catalogOf, processAll, sortedInput, List.insertionSort, processFile,
        flightRowsOf, fileSpan, tsColOf, exFilesSpan, exDfSpan, timeCols, dfColumn,
        toDatetimeGuess, validMax, validMin, spanOf, unitScale, foldBounds, updateA,
        flightIdFor, pathParts, splitOnChar, fileNameOf, stem, topicName,
        durationOf, exFlightRow, hfk, List.orderedInsert, countRowsQuick, candCols]
    rw [h]
    exact List.mem_cons_self _ _
  exact ⟨hmem,
    C9_flights_need_spans_events_can_orphan.1 exFilesSpan exFlightRow hmem⟩

/-- C10 (confirmed): the catalog build is a function of the *set* of
scanned files — any enumeration order of the (distinct-path) files yields
the same catalog, because the scan sorts paths first — and each emitted
table is sorted by its fixed keys: flights by FlightID, files by
(FlightID, TopicName), failure events by (FlightID, EventTimeUTC,
FaultType) with missing times last, schema by (TopicName, Column). -/
theorem C10_catalog_deterministic_and_sorted (l1 l2 : List InputFile)
    (hp : l1.Perm l2) (hnd : (l1.map InputFile.path).Nodup) :
    catalogOf l1 = catalogOf l2 ∧
    (catalogOf l1).flights.Sorted flightRowLe ∧
    (catalogOf l1).files.Sorted fileRowLe ∧
    (catalogOf l1).events.Sorted failRowLe ∧
    (catalogOf l1).schema.Sorted schemaRowLe := by
  refine ⟨?_, List.sorted_insertionSort flightRowLe _,
    List.sorted_insertionSort fileRowLe _, List.sorted_insertionSort failRowLe _,
    List.sorted_insertionSort schemaRowLe _⟩
  have h := sortedInput_perm_invariant l1 l2 hp hnd
  unfold catalogOf processAll
  rw [h]

/-- C10 witness: the theorem applied to the same two files enumerated in
opposite orders. -/
theorem C10_witness :
    exFilesC10a.Perm exFilesC10b ∧
    (exFilesC10a.map InputFile.path).Nodup ∧
    catalogOf exFilesC10a = catalogOf exFilesC10b := by
  have hperm : exFilesC10a.Perm exFilesC10b := by
    unfold exFilesC10a exFilesC10b
    exact List.Perm.swap _ _ []
  exact ⟨hperm, by decide,
    (C10_catalog_deterministic_and_sorted exFilesC10a exFilesC10b hperm
      (by decide)).1⟩

end UAVCatalog
